import Mathlib

/-!
# Verification of the `ring` package's `Buff` circular buffer

A shallow embedding of `src/ringBuff.go` (package `ring` of xx-labs/ring).

Modelling conventions:
* Go `interface{}` values stored in the buffer are `Option α`; the Go `nil`
  interface is `none`. `UpsertById`'s gap filling pushes `nil`, i.e. `none`.
* Go's `%` on `int` is truncated division remainder: `Int.tmod`.
* Go run-time panics (integer division by zero in `x % 0`, slice index out of
  range) are modelled by an outer `Option`: `none` is a panic. Operations
  that cannot panic return plain values.
* The `sync.RWMutex` is dropped: every operation is a pure function from the
  locked state to a result (and possibly a new state), which is exactly the
  sequential semantics the lock enforces.
* Errors built with `errors.Errorf` are modelled as inductive values carrying
  the integers that the Go format string interpolates, in order, so that
  claims about error payloads are expressible.
-/

namespace RingBuff

/-- Go slice read `l[i]` for an `int` index: panics (`none`) when the index is
negative or not below the length. -/
def goIdx {β : Type} (l : List β) (i : Int) : Option β :=
  if 0 ≤ i then l[i.toNat]? else none

/-- Go slice write `l[i] = v` for an `int` index: panics (`none`) when the
index is negative or not below the length. -/
def goSet {β : Type} (l : List β) (i : Int) (v : β) : Option (List β) :=
  if 0 ≤ i ∧ i.toNat < l.length then some (l.set i.toNat v) else none

/-- Go `a % b` on `int`: truncated remainder, panicking (`none`) when `b = 0`. -/
def goMod (a b : Int) : Option Int :=
  if b = 0 then none else some (a.tmod b)

/-- The `Buff` struct: `buff []interface{}`, and the
`count, oldest, newest int` cursors. The mutex is omitted (see module docs). -/
structure Buff (α : Type) where
  buff : List (Option α)
  count : Int
  oldest : Int
  newest : Int
deriving DecidableEq, Repr

/-- Payload of the two `getById` error strings:
`idTooOld requested bound` is "requested ID %d is lower than oldest id %d"
(the Go code interpolates `id, rb.newest`);
`idTooNew requested bound` is "requested id %d is higher than most recent id %d"
(the Go code interpolates `id, rb.oldest`). -/
inductive GetErr where
  | idTooOld (requested : Int) (bound : Int)
  | idTooNew (requested : Int) (bound : Int)
deriving DecidableEq, Repr

/-- The `UpsertById` error ("Did not upsert value ...; id is older than first
tracked"): the format string carries only the value, no cursor. -/
inductive UpsertErr where
  | staleId
deriving DecidableEq, Repr

/-- Payload of `GetNewerById`'s error "requested ID %d is higher than the
newest id %d" (the Go code interpolates the possibly clamped `id` and
`rb.newest`). -/
inductive NewerErr where
  | requestedIdTooNew (requested : Int) (bound : Int)
deriving DecidableEq, Repr

/-- Result of a Go call that can panic or return an error: `panic` is a
run-time panic, `err e` an error return, `ok a` a normal return. -/
inductive GRes (ε : Type) (β : Type) where
  | panic
  | err (e : ε)
  | ok (a : β)
deriving DecidableEq, Repr

/-- `NewBuff(n)`: `make([]interface{}, n)` with `count = n`, `oldest = 0`,
`newest = -1`. Go's `make` panics for a negative length (`none`); there is no
check against `n = 0`. -/
def NewBuff (α : Type) (n : Int) : Option (Buff α) :=
  if n < 0 then none
  else some { buff := List.replicate n.toNat none, count := n, oldest := 0, newest := -1 }

/-- `GetNewestId()`: returns `rb.newest`. -/
def Buff.GetNewestId {α : Type} (rb : Buff α) : Int := rb.newest

/-- `GetOldestId()`: returns `rb.oldest`. -/
def Buff.GetOldestId {α : Type} (rb : Buff α) : Int := rb.oldest

/-- `Len()`: returns `rb.count`. -/
def Buff.Len {α : Type} (rb : Buff α) : Int := rb.count

/-- The unexported `next()` helper: `rb.newest++`, and if the new `newest`
reaches `rb.count`, `rb.oldest++`. -/
def Buff.next {α : Type} (rb : Buff α) : Buff α :=
  { rb with
    newest := rb.newest + 1
    oldest := if rb.newest + 1 ≥ rb.count then rb.oldest + 1 else rb.oldest }

/-- The unexported `push(val)` helper: `rb.next()` then
`rb.buff[rb.newest % rb.count] = val`. Panics (`none`) when `rb.count = 0`
(division by zero) or the computed index is out of range. -/
def Buff.push {α : Type} (rb : Buff α) (val : Option α) : Option (Buff α) :=
  let rb' := rb.next
  match goMod rb'.newest rb'.count with
  | none => none
  | some i =>
    match goSet rb'.buff i val with
    | none => none
    | some l => some { rb' with buff := l }

/-- Exported `Push(val)`: takes the write lock and calls `push`. -/
def Buff.Push {α : Type} (rb : Buff α) (val : Option α) : Option (Buff α) :=
  rb.push val

/-- `k` consecutive `rb.push(nil)` calls, as performed by the gap-filling
loop of `UpsertById`. -/
def Buff.pushNils {α : Type} (rb : Buff α) : Nat → Option (Buff α)
  | 0 => some rb
  | k + 1 =>
    match rb.push none with
    | none => none
    | some rb' => rb'.pushNils k

/-- `UpsertById(newId, val)`. Returns `some (rb', e)` where `rb'` is the
buffer state when the method returns and `e` the returned error (`none` for a
`nil` error); returns `none` on a panic. The Go body: reject `newId` older
than `oldest` (before any mutation); run `rb.push(nil)` for
`i := rb.newest + 1; i <= newId; i++` (that is `newId - rb.newest` iterations
when positive, none otherwise); then `rb.buff[newId % rb.count] = val`. -/
def Buff.UpsertById {α : Type} (rb : Buff α) (newId : Int) (val : α) :
    Option (Buff α × Option UpsertErr) :=
  if rb.oldest > newId then some (rb, some UpsertErr.staleId)
  else
    match rb.pushNils (newId - rb.newest).toNat with
    | none => none
    | some rb' =>
      match goMod newId rb'.count with
      | none => none
      | some i =>
        match goSet rb'.buff i (some val) with
        | none => none
        | some l => some ({ rb' with buff := l }, none)

/-- `Get()`: reads `rb.buff[rb.newest % rb.count]`. Panics (`none`) when
`rb.count = 0` or when the truncated remainder is negative (empty buffer with
`rb.newest = -1` and `rb.count ≥ 2`). -/
def Buff.Get {α : Type} (rb : Buff α) : Option (Option α) :=
  match goMod rb.newest rb.count with
  | none => none
  | some i => goIdx rb.buff i

/-- The unexported `getById(id)` helper: error `idTooOld` when
`id < rb.oldest` (message interpolates `id, rb.newest`), error `idTooNew`
when `id > rb.newest` (message interpolates `id, rb.oldest`), otherwise
returns `rb.buff[id % rb.count]`. -/
def Buff.getById {α : Type} (rb : Buff α) (id : Int) : GRes GetErr (Option α) :=
  if id < rb.oldest then GRes.err (GetErr.idTooOld id rb.newest)
  else if id > rb.newest then GRes.err (GetErr.idTooNew id rb.oldest)
  else
    match goMod id rb.count with
    | none => GRes.panic
    | some i =>
      match goIdx rb.buff i with
      | none => GRes.panic
      | some v => GRes.ok v

/-- Exported `GetById(id)`: takes the read lock and calls `getById`. -/
def Buff.GetById {α : Type} (rb : Buff α) (id : Int) : GRes GetErr (Option α) :=
  rb.getById id

/-- `GetByIndex(i)`: rejects `i < 0 || i >= rb.count`, otherwise returns
`rb.buff[i]`. -/
def Buff.GetByIndex {α : Type} (rb : Buff α) (i : Int) : GRes Int (Option α) :=
  if i < 0 ∨ i ≥ rb.count then GRes.err i
  else
    match goIdx rb.buff i with
    | none => GRes.panic
    | some v => GRes.ok v

/-- The element-collecting loop of `GetNewerById`: entries for ids
`start, start+1, ..., start+k-1`, each `rb.getById i` with the error
suppressed (an error leaves the `nil` the slice was made with); a panic in
`getById` propagates. -/
def Buff.collect {α : Type} (rb : Buff α) (start : Int) : Nat → Option (List (Option α))
  | 0 => some []
  | k + 1 =>
    match rb.getById start with
    | GRes.panic => none
    | GRes.err _ =>
      match rb.collect (start + 1) k with
      | none => none
      | some l => some (none :: l)
    | GRes.ok v =>
      match rb.collect (start + 1) k with
      | none => none
      | some l => some (v :: l)

/-- `GetNewerById(id)`: clamp `id` to `rb.oldest - 1` when `id < rb.oldest`;
error when the clamped id exceeds `rb.newest`; otherwise build a slice of
length `rb.newest - id` whose entry `i - id - 1` is `rb.getById(i)` for
`i := id + 1; i <= rb.newest; i++`. Outer `none` is a panic. -/
def Buff.GetNewerById {α : Type} (rb : Buff α) (id : Int) :
    Option (Except NewerErr (List (Option α))) :=
  let id' := if id < rb.oldest then rb.oldest - 1 else id
  if id' > rb.newest then
    some (Except.error (NewerErr.requestedIdTooNew id' rb.newest))
  else
    match rb.collect (id' + 1) (rb.newest - id').toNat with
    | none => none
    | some l => some (Except.ok l)

/-- Pushing a list of values one by one through the exported `Push`. -/
def Buff.pushList {α : Type} (rb : Buff α) (l : List α) : Option (Buff α) :=
  match l with
  | [] => some rb
  | v :: l' =>
    match rb.Push (some v) with
    | none => none
    | some rb' => rb'.pushList l'

/-- The state invariant maintained by every reachable buffer: the slice length
matches `count`, `newest` never drops below its initial `-1`, and `oldest` is
exactly `max 0 (newest + 1 - count)`. -/
def Buff.Inv {α : Type} (rb : Buff α) : Prop :=
  rb.buff.length = rb.count.toNat ∧ -1 ≤ rb.newest ∧
    rb.oldest = max 0 (rb.newest + 1 - rb.count)

/-- Two ids that are distinct but less than `c` apart land in distinct
physical slots. -/
lemma slot_toNat_ne {a b c : Int} (ha : 0 ≤ a) (hab : a < b) (hc : 0 < c)
    (hd : b - a < c) : (a.tmod c).toNat ≠ (b.tmod c).toNat := by
  have hb : 0 ≤ b := le_of_lt (lt_of_le_of_lt ha hab)
  have hc' : 0 ≤ c := le_of_lt hc
  rw [Int.tmod_eq_emod ha hc', Int.tmod_eq_emod hb hc']
  have hna : 0 ≤ a % c := Int.emod_nonneg a (by omega)
  have hnb : 0 ≤ b % c := Int.emod_nonneg b (by omega)
  intro h
  have hmod : b % c = a % c := by omega
  have hz : (b - a) % c = 0 := Int.emod_eq_emod_iff_emod_sub_eq_zero.mp hmod
  have hdvd : c ∣ b - a := Int.dvd_of_emod_eq_zero hz
  have : c ≤ b - a := Int.le_of_dvd (by omega) hdvd
  omega

/-- Closed form of the internal `push` on any state with a positive
capacity, a well-sized slice, and `newest ≥ -1`. -/
lemma Buff.push_eq {α : Type} (rb : Buff α) (v : Option α) (hc : 0 < rb.count)
    (hn : -1 ≤ rb.newest) (hl : rb.buff.length = rb.count.toNat) :
    rb.push v = some
      { buff := rb.buff.set (((rb.newest + 1).tmod rb.count).toNat) v,
        count := rb.count,
        oldest := if rb.newest + 1 ≥ rb.count then rb.oldest + 1 else rb.oldest,
        newest := rb.newest + 1 } := by
  have hc0 : rb.count ≠ 0 := by omega
  have hge : 0 ≤ (rb.newest + 1).tmod rb.count := Int.tmod_nonneg _ (by omega)
  have hlt : (rb.newest + 1).tmod rb.count < rb.count := Int.tmod_lt_of_pos _ hc
  have hidx : ((rb.newest + 1).tmod rb.count).toNat < rb.buff.length := by omega
  simp [Buff.push, Buff.next, goMod, goSet, hc0, hge, hidx]

/-- Closed form of the gap-filling loop `pushNils` from any state satisfying
the invariant: the cursors advance as for `k` pushes, and a live id `j` reads
back its old slot when `j` predates the loop and the empty placeholder when
the loop itself wrote it. -/
lemma Buff.pushNils_spec {α : Type} (k : Nat) (rb : Buff α) (hInv : rb.Inv)
    (hc : 0 < rb.count) :
    ∃ rb', rb.pushNils k = some rb' ∧ rb'.Inv ∧ rb'.count = rb.count ∧
      rb'.newest = rb.newest + k ∧
      ∀ j : Int, rb'.oldest ≤ j → j ≤ rb'.newest →
        rb'.buff[(j.tmod rb.count).toNat]? =
          if j ≤ rb.newest then rb.buff[(j.tmod rb.count).toNat]? else some none := by
  induction k generalizing rb with
  | zero =>
    refine ⟨rb, rfl, hInv, rfl, by simp, ?_⟩
    intro j _ hj2
    rw [if_pos hj2]
  | succ k ih =>
    obtain ⟨hl, hn, ho⟩ := hInv
    have hstep := rb.push_eq none hc hn hl
    have hge : 0 ≤ (rb.newest + 1).tmod rb.count := Int.tmod_nonneg _ (by omega)
    have hlt : (rb.newest + 1).tmod rb.count < rb.count := Int.tmod_lt_of_pos _ hc
    set rb1 : Buff α :=
      { buff := rb.buff.set (((rb.newest + 1).tmod rb.count).toNat) none,
        count := rb.count,
        oldest := if rb.newest + 1 ≥ rb.count then rb.oldest + 1 else rb.oldest,
        newest := rb.newest + 1 } with hrb1
    have hInv1 : rb1.Inv := by
      refine ⟨?_, by simp [hrb1]; omega, ?_⟩
      · simp [hrb1, List.length_set, hl]
      · simp only [hrb1]
        split <;> omega
    obtain ⟨rb', hrun, hInv', hcnt, hnew, hchar⟩ := ih rb1 hInv1 (by simp [hrb1]; omega)
    refine ⟨rb', ?_, hInv', by simpa [hrb1] using hcnt, ?_, ?_⟩
    · simp only [Buff.pushNils, hstep]
      exact hrun
    · simp only [hnew, hrb1]
      push_cast
      omega
    · intro j hj1 hj2
      have hcnt1 : rb1.count = rb.count := by simp [hrb1]
      have hn1 : rb1.newest = rb.newest + 1 := by simp [hrb1]
      have ho' : rb'.oldest = max 0 (rb'.newest + 1 - rb'.count) := hInv'.2.2
      have hchar' := hchar j hj1 (by omega)
      rw [hcnt1] at hchar'
      by_cases hcase : j ≤ rb.newest
      · rw [if_pos hcase, hchar', if_pos (by omega)]
        have hj0 : 0 ≤ j := by omega
        have hslot : (j.tmod rb.count).toNat ≠ (((rb.newest + 1)).tmod rb.count).toNat := by
          apply slot_toNat_ne hj0 (by omega) hc
          omega
        simp only [hrb1]
        exact List.getElem?_set_ne (Ne.symm hslot)
      · rw [if_neg hcase, hchar']
        by_cases hcase1 : j ≤ rb1.newest
        · rw [if_pos hcase1]
          have hj : j = rb.newest + 1 := by omega
          simp only [hrb1, hj]
          exact List.getElem?_set_self (by omega)
        · rw [if_neg hcase1]

/-- `getById` on a live id (between `oldest` and `newest`) returns the content
of the physical slot `id mod count`, with no error and no panic. -/
lemma Buff.getById_live {α : Type} (rb : Buff α) (j : Int) (hc : 0 < rb.count)
    (hl : rb.buff.length = rb.count.toNat) (h0 : 0 ≤ rb.oldest)
    (h1 : rb.oldest ≤ j) (h2 : j ≤ rb.newest) :
    ∃ w, rb.buff[(j.tmod rb.count).toNat]? = some w ∧ rb.getById j = GRes.ok w := by
  have hge : 0 ≤ j.tmod rb.count := Int.tmod_nonneg _ (by omega)
  have hlt : j.tmod rb.count < rb.count := Int.tmod_lt_of_pos _ hc
  have hidx : (j.tmod rb.count).toNat < rb.buff.length := by omega
  have hc0 : ¬ rb.count = 0 := by omega
  refine ⟨rb.buff.get ⟨(j.tmod rb.count).toNat, hidx⟩, ?_, ?_⟩
  · rw [List.getElem?_eq_getElem hidx]
    rfl
  · simp only [Buff.getById, goMod, goIdx, if_neg (not_lt.mpr h1),
      if_neg (not_lt.mpr h2), if_neg hc0, if_pos hge,
      List.getElem?_eq_getElem hidx]
    rfl

/-- Characterization of a non-stale `UpsertById` on an invariant-satisfying
state with positive capacity: the gap-filling loop runs to completion, the
cursors land at `max newest id`, and the returned state is the loop's state
with `some v` written into slot `id mod count`. -/
lemma Buff.upsert_eq {α : Type} (rb : Buff α) (id : Int) (v : α) (hInv : rb.Inv)
    (hc : 0 < rb.count) (hid : rb.oldest ≤ id) :
    ∃ rb'', rb.pushNils (id - rb.newest).toNat = some rb'' ∧ rb''.Inv ∧
      rb''.count = rb.count ∧ rb''.newest = max rb.newest id ∧
      rb''.oldest = max 0 (max rb.newest id + 1 - rb.count) ∧
      rb.UpsertById id v = some
        ({ rb'' with buff := rb''.buff.set ((id.tmod rb.count).toNat) (some v) }, none) ∧
      ∀ j : Int, rb''.oldest ≤ j → j ≤ rb''.newest →
        rb''.buff[(j.tmod rb.count).toNat]? =
          if j ≤ rb.newest then rb.buff[(j.tmod rb.count).toNat]? else some none := by
  obtain ⟨rb'', hrun, hInv'', hcnt, hnew, hchar⟩ :=
    rb.pushNils_spec (id - rb.newest).toNat hInv hc
  have ho : 0 ≤ rb.oldest := by
    have := hInv.2.2
    omega
  have hnew' : rb''.newest = max rb.newest id := by
    rw [hnew]
    omega
  have hid0 : 0 ≤ id := by omega
  have hge : 0 ≤ id.tmod rb.count := Int.tmod_nonneg _ hid0
  have hlt : id.tmod rb.count < rb.count := Int.tmod_lt_of_pos _ hc
  have hidx : (id.tmod rb.count).toNat < rb''.buff.length := by
    have := hInv''.1
    omega
  refine ⟨rb'', hrun, hInv'', hcnt, hnew', ?_, ?_, hchar⟩
  · have := hInv''.2.2
    omega
  · simp only [Buff.UpsertById, if_neg (not_lt.mpr hid), hrun, hcnt, goMod, goSet,
      if_neg (show ¬ rb.count = 0 by omega), if_pos (And.intro hge hidx)]

/-- The states reachable from `NewBuff c` by any sequence of `Push` and
`UpsertById` calls (the two mutating operations) that do not panic. -/
inductive Reach (α : Type) (c : Int) : Buff α → Prop where
  | init (rb : Buff α) : NewBuff α c = some rb → Reach α c rb
  | push (rb : Buff α) (v : Option α) (rb' : Buff α) :
      Reach α c rb → rb.Push v = some rb' → Reach α c rb'
  | upsert (rb : Buff α) (id : Int) (v : α) (rb' : Buff α) (e : Option UpsertErr) :
      Reach α c rb → rb.UpsertById id v = some (rb', e) → Reach α c rb'

/-- Every reachable state of a positive-capacity buffer has `count = c` and
satisfies the invariant `Inv`. -/
lemma reach_inv {α : Type} {c : Int} {rb : Buff α} (hc : 0 < c)
    (h : Reach α c rb) : rb.count = c ∧ rb.Inv := by
  induction h with
  | init rb h0 =>
    rw [NewBuff, if_neg (by omega)] at h0
    cases h0
    refine ⟨rfl, by simp [Buff.Inv], by simp, ?_⟩
    simp
    omega
  | push rb v rb' _ hstep ih =>
    obtain ⟨hcnt, hInv⟩ := ih
    obtain ⟨hl, hn, ho⟩ := hInv
    rw [Buff.Push, rb.push_eq v (by omega) hn hl] at hstep
    cases hstep
    refine ⟨hcnt, by simp [List.length_set, hl], by simp; omega, ?_⟩
    simp only
    split <;> omega
  | upsert rb id v rb' e _ hstep ih =>
    obtain ⟨hcnt, hInv⟩ := ih
    by_cases hid : rb.oldest ≤ id
    · obtain ⟨rb'', _, hInv'', hcnt'', hnew'', hold'', heq, _⟩ :=
        rb.upsert_eq id v hInv (by omega) hid
      rw [heq] at hstep
      cases hstep
      obtain ⟨hl'', hn'', ho''⟩ := hInv''
      exact ⟨by simpa using hcnt''.trans hcnt,
        by simpa [List.length_set] using hl'', by simpa using hn'', by simpa using ho''⟩
    · rw [Buff.UpsertById, if_pos (by omega)] at hstep
      cases hstep
      exact ⟨hcnt, hInv⟩

/-- Go's truncated remainder of `-1` by a modulus above `1` is `-1`. -/
lemma tmod_neg_one {c : Int} (hc : 1 < c) : (-1 : Int).tmod c = -1 := by
  obtain ⟨n, rfl⟩ : ∃ n : Nat, c = (n : Int) := ⟨c.toNat, by omega⟩
  have hn : 1 < n := by omega
  have h1 : (-1 : Int).tmod (n : Int) = -((1 % n : Nat) : Int) := rfl
  rw [h1, Nat.mod_eq_of_lt hn]
  rfl

/-- C6: for every buffer state and every `id < oldest`, `UpsertById(id, v)`
fails with the `StaleId` error and performs no mutation: the state when the
method returns is exactly the input state. -/
theorem c6_stale_upsert_no_mutation {α : Type} (rb : Buff α) (id : Int) (v : α)
    (h : id < rb.oldest) :
    rb.UpsertById id v = some (rb, some UpsertErr.staleId) := by
  rw [Buff.UpsertById, if_pos (by omega)]

/-- Witness for C6: capacity 3 after four pushes (`oldest = 1`), upserting
the evicted id 0 fails with `StaleId` and returns the state unchanged. -/
theorem c6_stale_upsert_no_mutation_witness :
    Buff.UpsertById
        { buff := [some 40, some 20, some 30], count := 3, oldest := 1, newest := 3 } 0 (7 : Nat)
      = some ({ buff := [some 40, some 20, some 30], count := 3, oldest := 1, newest := 3 },
              some UpsertErr.staleId) :=
  c6_stale_upsert_no_mutation
    { buff := [some 40, some 20, some 30], count := 3, oldest := 1, newest := 3 } 0 7 (by decide)

/-- C7: on every buffer state with positive capacity (well-sized slice,
`newest ≥ -1`, `oldest ≤ newest + 1`), `UpsertById(newest + 1, v)` succeeds
and produces exactly the final state that `Push(v)` produces. -/
theorem c7_upsert_next_is_push {α : Type} (rb : Buff α) (v : α) (hc : 0 < rb.count)
    (hl : rb.buff.length = rb.count.toNat) (hn : -1 ≤ rb.newest)
    (ho : rb.oldest ≤ rb.newest + 1) :
    ∃ rb', rb.Push (some v) = some rb' ∧
      rb.UpsertById (rb.newest + 1) v = some (rb', none) := by
  have hpush := rb.push_eq (some v) hc hn hl
  have hpush0 := rb.push_eq none hc hn hl
  have hge : 0 ≤ (rb.newest + 1).tmod rb.count := Int.tmod_nonneg _ (by omega)
  have hlt : (rb.newest + 1).tmod rb.count < rb.count := Int.tmod_lt_of_pos _ hc
  have hidx : ((rb.newest + 1).tmod rb.count).toNat < (rb.buff.set (((rb.newest + 1).tmod rb.count).toNat) none).length := by
    rw [List.length_set]
    omega
  refine ⟨_, hpush, ?_⟩
  have h1 : (rb.newest + 1 - rb.newest).toNat = 1 := by omega
  rw [Buff.UpsertById, if_neg (by omega), h1]
  simp only [Buff.pushNils, hpush0, goMod, goSet,
    if_neg (show ¬ (rb.count = 0) by omega), if_pos (And.intro hge hidx),
    List.set_set]

/-- Witness for C7: capacity 3, ids 0 and 1 occupied; upserting at
`newest + 1 = 2` equals pushing. -/
theorem c7_upsert_next_is_push_witness :
    ∃ rb', Buff.Push { buff := [some 10, some 20, none], count := 3, oldest := 0, newest := 1 } (some (99 : Nat)) = some rb' ∧
      Buff.UpsertById { buff := [some 10, some 20, none], count := 3, oldest := 0, newest := 1 } 2 99 = some (rb', none) := by
  have h := c7_upsert_next_is_push
    { buff := [some 10, some 20, none], count := 3, oldest := 0, newest := 1 }
    (99 : Nat) (by decide) (by decide) (by decide) (by decide)
  exact h

/-- C8 counterexample: `NewBuff(0)` does not fail at construction; it returns
a zero-slot buffer, contradicting "fails for every capacity <= 0". -/
theorem c8_counterexample :
    NewBuff Nat 0 = some { buff := [], count := 0, oldest := 0, newest := -1 } := by
  decide

/-- C8 (amended): construction fails immediately for every negative capacity
(Go's `make` panics); capacity 0 is accepted at construction, yielding a
zero-slot buffer (the failure is deferred to the first push); every positive
capacity yields `capacity` empty slots, `oldest = 0`, `newest = -1`. -/
theorem c8_construction_amended (α : Type) :
    (∀ n : Int, n < 0 → NewBuff α n = none) ∧
    NewBuff α 0 = some { buff := [], count := 0, oldest := 0, newest := -1 } ∧
    (∀ n : Int, 0 < n →
      NewBuff α n = some { buff := List.replicate n.toNat none, count := n,
                           oldest := 0, newest := -1 }) := by
  refine ⟨?_, ?_, ?_⟩
  · intro n hn
    rw [NewBuff, if_pos hn]
  · rw [NewBuff, if_neg (by omega)]
    rfl
  · intro n hn
    rw [NewBuff, if_neg (by omega)]

/-- Witness for C8 (amended) at capacities `-2` and `3`. -/
theorem c8_construction_amended_witness :
    NewBuff Nat (-2) = none ∧
    NewBuff Nat 3 = some { buff := [none, none, none], count := 3, oldest := 0, newest := -1 } :=
  ⟨(c8_construction_amended Nat).1 (-2) (by decide),
   (c8_construction_amended Nat).2.2 3 (by decide)⟩

/-- C9: at the concrete state reached by pushing 10, 20, 30, 40 into a
capacity-3 buffer (`oldest = 1`, `newest = 3`), the `IdTooOld` error of
`getById(0)` carries `newest` (3) where the claim requires `oldest` (1), and
the `IdTooNew` error of `getById(4)` carries `oldest` (1) where the claim
requires `newest` (3): the two bounds are swapped in the code's error
messages. -/
theorem c9_error_bounds_swapped :
    NewBuff Nat 3 = some { buff := [none, none, none], count := 3, oldest := 0, newest := -1 } ∧
    Buff.pushList { buff := [none, none, none], count := 3, oldest := 0, newest := -1 } [10, 20, 30, 40]
      = some { buff := [some 40, some 20, some 30], count := 3, oldest := 1, newest := 3 } ∧
    Buff.getById { buff := [some 40, some 20, some 30], count := 3, oldest := 1, newest := 3 } 0
      = GRes.err (GetErr.idTooOld 0 3) ∧
    Buff.getById { buff := [some 40, some 20, some 30], count := 3, oldest := 1, newest := 3 } 4
      = GRes.err (GetErr.idTooNew 4 1) := by
  refine ⟨by decide, by decide, by decide, by decide⟩

/-- C10: `NewBuff(0)` constructs a buffer without rejecting the zero
capacity, and `Push` on that buffer computes `newest % count` with
`count = 0` — a division by zero — so the embedded `Push` returns the guarded
panic value `none`. -/
theorem c10_newbuff_zero_push_panics :
    NewBuff Nat 0 = some { buff := [], count := 0, oldest := 0, newest := -1 } ∧
    Buff.Push { buff := ([] : List (Option Nat)), count := 0, oldest := 0, newest := -1 } (some 7) = none := by
  refine ⟨by decide, by decide⟩

/-- C5 counterexample: the freshly built capacity-2 buffer is empty
(`newest = -1 < oldest = 0`), and `Get` evaluates to the panic value `none`
(Go computes the slice index `-1 % 2 = -1` and faults) instead of returning
an empty value `some none`. -/
theorem c5_counterexample :
    NewBuff Nat 2 = some { buff := [none, none], count := 2, oldest := 0, newest := -1 } ∧
    Buff.Get { buff := [none, none], count := 2, oldest := 0, newest := -1 } = (none : Option (Option Nat)) := by
  refine ⟨by decide, by decide⟩

/-- C5 (amended): `Get` is a pure read (the embedding returns no state, so it
cannot mutate); on a non-empty buffer (`0 ≤ newest`) it returns the slot
content at `newest mod capacity`; on an empty buffer (`newest = -1`) it
panics when `capacity ≥ 2` (the truncated remainder is `-1`, an out-of-range
slice index), and returns slot 0's current content when `capacity = 1`. -/
theorem c5_get_amended {α : Type} (rb : Buff α) (hc : 0 < rb.count)
    (hl : rb.buff.length = rb.count.toNat) :
    (0 ≤ rb.newest →
      rb.Get = rb.buff[(rb.newest.tmod rb.count).toNat]? ∧ ∃ w, rb.Get = some w) ∧
    (rb.newest = -1 → 1 < rb.count → rb.Get = none) ∧
    (rb.newest = -1 → rb.count = 1 → rb.Get = rb.buff[0]?) := by
  have hc0 : ¬ rb.count = 0 := by omega
  refine ⟨?_, ?_, ?_⟩
  · intro hn
    have hge : 0 ≤ rb.newest.tmod rb.count := Int.tmod_nonneg _ hn
    have hlt : rb.newest.tmod rb.count < rb.count := Int.tmod_lt_of_pos _ hc
    have hidx : (rb.newest.tmod rb.count).toNat < rb.buff.length := by omega
    constructor
    · simp only [Buff.Get, goMod, goIdx, if_neg hc0, if_pos hge]
    · refine ⟨rb.buff.get ⟨(rb.newest.tmod rb.count).toNat, hidx⟩, ?_⟩
      simp only [Buff.Get, goMod, goIdx, if_neg hc0, if_pos hge,
        List.getElem?_eq_getElem hidx]
      rfl
  · intro hn hc2
    rw [Buff.Get, goMod, if_neg hc0, hn, tmod_neg_one hc2]
    simp [goIdx]
  · intro hn hc1
    rw [Buff.Get, goMod, if_neg hc0, hn, hc1]
    simp only [Int.tmod_one, goIdx, le_refl, if_pos]
    rfl

/-- Witness for C5 (amended): a capacity-3 buffer holding ids 1..3; `Get`
returns the value at slot `3 mod 3 = 0`. -/
theorem c5_get_amended_witness :
    Buff.Get { buff := [some 40, some 20, some 30], count := 3, oldest := 1, newest := 3 } = some (some (40 : Nat)) := by
  have h := (c5_get_amended
    { buff := [some 40, some 20, some 30], count := 3, oldest := 1, newest := 3 }
    (by decide) (by decide)).1 (by decide)
  exact h.1.trans (by decide)

/-- C2 counterexample: on a fresh capacity-1 buffer, `UpsertById(2, 5)`
succeeds, and id 0 is a gap id in `(old newest, id) = (-1, 2)` filled (with
the empty placeholder) by this very call — yet `getById(0)` fails with
`IdTooOld` rather than returning the empty placeholder, because the call's
own gap filling advanced `oldest` past it. -/
theorem c2_counterexample :
    NewBuff Nat 1 = some { buff := [none], count := 1, oldest := 0, newest := -1 } ∧
    Buff.UpsertById { buff := [none], count := 1, oldest := 0, newest := -1 } 2 (5 : Nat)
      = some ({ buff := [some 5], count := 1, oldest := 2, newest := 2 }, none) ∧
    Buff.getById { buff := [some 5], count := 1, oldest := 2, newest := 2 } 0
      = GRes.err (GetErr.idTooOld 0 2) := by
  refine ⟨by decide, by decide, by decide⟩

/-- C2 (amended): after a successful `UpsertById(id, v)` on an
invariant-satisfying state with positive capacity: `getById(id)` returns
`v`; every id live both before and after the call, other than `id`, reads
back exactly what it read before; every gap id in `(old newest, id)` that is
still live after the call reads back the empty placeholder (not an error);
and when `id` was within `[oldest, newest]` the cursors are unchanged. -/
theorem c2_upsert_postconditions {α : Type} (rb rb' : Buff α) (id : Int) (v : α)
    (hInv : rb.Inv) (hc : 0 < rb.count)
    (h : rb.UpsertById id v = some (rb', none)) :
    rb'.getById id = GRes.ok (some v) ∧
    (∀ j : Int, rb.oldest ≤ j → j ≤ rb.newest → rb'.oldest ≤ j → j ≠ id →
      rb'.getById j = rb.getById j) ∧
    (∀ g : Int, rb.newest < g → g < id → rb'.oldest ≤ g →
      rb'.getById g = GRes.ok none) ∧
    (rb.oldest ≤ id → id ≤ rb.newest →
      rb'.oldest = rb.oldest ∧ rb'.newest = rb.newest) := by
  have hid : rb.oldest ≤ id := by
    by_contra hlt
    rw [Buff.UpsertById, if_pos (by omega)] at h
    simp at h
  obtain ⟨hl, hn, ho⟩ := hInv
  obtain ⟨rb'', hrun, hInv'', hcnt'', hnew'', hold'', heq, hchar⟩ :=
    rb.upsert_eq id v ⟨hl, hn, ho⟩ hc hid
  rw [heq] at h
  have hrb' : rb' = { rb'' with buff := rb''.buff.set ((id.tmod rb.count).toNat) (some v) } :=
    ((Prod.ext_iff.mp (Option.some.inj h)).1).symm
  subst hrb'
  obtain ⟨hl'', hn'', ho''⟩ := hInv''
  have hid0 : 0 ≤ id := by omega
  have hoz : 0 ≤ rb.oldest := by omega
  have hoz'' : 0 ≤ rb''.oldest := by omega
  have hlset : (rb''.buff.set ((id.tmod rb.count).toNat) (some v)).length = rb.count.toNat := by
    rw [List.length_set]
    omega
  refine ⟨?_, ?_, ?_, ?_⟩
  · -- getById(id) returns v
    obtain ⟨w, hwslot, hwok⟩ := Buff.getById_live
      { rb'' with buff := rb''.buff.set ((id.tmod rb.count).toNat) (some v) }
      id (by simpa [hcnt''] using hc) (by simpa [hcnt''] using hlset)
      (by simpa using hoz'') (by simp; omega) (by simp; omega)
    have hw : w = some v := by
      have hidx : (id.tmod rb.count).toNat < rb''.buff.length := by
        have hge : 0 ≤ id.tmod rb.count := Int.tmod_nonneg _ hid0
        have hlt : id.tmod rb.count < rb.count := Int.tmod_lt_of_pos _ hc
        omega
      rw [show ({ rb'' with buff := rb''.buff.set ((id.tmod rb.count).toNat) (some v) } : Buff α).buff
            = rb''.buff.set ((id.tmod rb.count).toNat) (some v) from rfl,
          show ({ rb'' with buff := rb''.buff.set ((id.tmod rb.count).toNat) (some v) } : Buff α).count
            = rb.count from by simp [hcnt''],
          List.getElem?_set_self hidx] at hwslot
      exact (Option.some.inj hwslot).symm
    rw [hwok, hw]
  · -- other live ids keep their values
    intro j hj1 hj2 hj3 hjne
    obtain ⟨w, hwslot, hwok⟩ := Buff.getById_live rb j hc hl hoz hj1 hj2
    obtain ⟨w', hw'slot, hw'ok⟩ := Buff.getById_live
      { rb'' with buff := rb''.buff.set ((id.tmod rb.count).toNat) (some v) }
      j (by simpa [hcnt''] using hc) (by simpa [hcnt''] using hlset)
      (by simpa using hoz'') (by simpa using hj3) (by simp; omega)
    have hj0 : 0 ≤ j := by omega
    have hslot : (j.tmod rb.count).toNat ≠ (id.tmod rb.count).toNat := by
      rcases lt_or_gt_of_ne hjne with hlt | hgt
      · exact slot_toNat_ne hj0 hlt hc (by simp at hj3; omega)
      · exact (slot_toNat_ne hid0 hgt hc (by omega)).symm
    have hww' : w' = w := by
      rw [show ({ rb'' with buff := rb''.buff.set ((id.tmod rb.count).toNat) (some v) } : Buff α).buff
            = rb''.buff.set ((id.tmod rb.count).toNat) (some v) from rfl,
          show ({ rb'' with buff := rb''.buff.set ((id.tmod rb.count).toNat) (some v) } : Buff α).count
            = rb.count from by simp [hcnt''],
          List.getElem?_set_ne (Ne.symm hslot)] at hw'slot
      have hchj := hchar j (by simp at hj3; omega) (by omega)
      rw [if_pos hj2] at hchj
      rw [hchj] at hw'slot
      rw [hwslot] at hw'slot
      exact (Option.some.inj hw'slot).symm
    rw [hwok, hw'ok, hww']
  · -- live gap ids read back the empty placeholder
    intro g hg1 hg2 hg3
    obtain ⟨w', hw'slot, hw'ok⟩ := Buff.getById_live
      { rb'' with buff := rb''.buff.set ((id.tmod rb.count).toNat) (some v) }
      g (by simpa [hcnt''] using hc) (by simpa [hcnt''] using hlset)
      (by simpa using hoz'') (by simpa using hg3) (by simp; omega)
    have hg0 : 0 ≤ g := by simp at hg3; omega
    have hslot : (g.tmod rb.count).toNat ≠ (id.tmod rb.count).toNat :=
      slot_toNat_ne hg0 hg2 hc (by simp at hg3; omega)
    have hw' : w' = none := by
      rw [show ({ rb'' with buff := rb''.buff.set ((id.tmod rb.count).toNat) (some v) } : Buff α).buff
            = rb''.buff.set ((id.tmod rb.count).toNat) (some v) from rfl,
          show ({ rb'' with buff := rb''.buff.set ((id.tmod rb.count).toNat) (some v) } : Buff α).count
            = rb.count from by simp [hcnt''],
          List.getElem?_set_ne (Ne.symm hslot)] at hw'slot
      have hchg := hchar g (by simp at hg3; omega) (by omega)
      rw [if_neg (by omega)] at hchg
      rw [hchg] at hw'slot
      exact (Option.some.inj hw'slot).symm
    rw [hw'ok, hw']
  · -- in-place overwrite leaves the cursors alone
    intro _ hid2
    constructor
    · simp only
      omega
    · simp only
      omega

/-- Witness for C2 (amended): capacity 3 with ids 0..1 live; upserting at
the live id 0 overwrites in place; conclusions instantiated at the concrete
result state. -/
theorem c2_upsert_postconditions_witness :
    Buff.getById { buff := [some 77, some 20, none], count := 3, oldest := 0, newest := 1 } 0
      = GRes.ok (some (77 : Nat)) ∧
    Buff.getById { buff := [some 77, some 20, none], count := 3, oldest := 0, newest := 1 } 1
      = Buff.getById { buff := [some 10, some 20, none], count := 3, oldest := 0, newest := 1 } 1 ∧
    ({ buff := [some 77, some 20, none], count := 3, oldest := 0, newest := 1 } : Buff Nat).oldest
      = ({ buff := [some 10, some 20, none], count := 3, oldest := 0, newest := 1 } : Buff Nat).oldest := by
  have h := c2_upsert_postconditions
    { buff := [some 10, some 20, none], count := 3, oldest := 0, newest := 1 }
    { buff := [some 77, some 20, none], count := 3, oldest := 0, newest := 1 }
    0 77 (by refine ⟨by decide, by decide, by decide⟩) (by decide) (by decide)
  exact ⟨h.1, h.2.1 1 (by decide) (by decide) (by decide) (by decide),
    (h.2.2.2 (by decide) (by decide)).1⟩

/-- The collecting loop of `GetNewerById`, run over `k` ids that are all
live, succeeds and yields the `getById` values in increasing id order. -/
lemma Buff.collect_spec {α : Type} (rb : Buff α) (hc : 0 < rb.count)
    (hl : rb.buff.length = rb.count.toNat) (h0 : 0 ≤ rb.oldest) :
    ∀ (k : Nat) (start : Int), rb.oldest ≤ start → start + k ≤ rb.newest + 1 →
      ∃ l : List (Option α), rb.collect start k = some l ∧ l.length = k ∧
        ∀ (j : Nat) (hj : j < l.length),
          rb.getById (start + j) = GRes.ok (l.get ⟨j, hj⟩) := by
  intro k
  induction k with
  | zero =>
    intro start _ _
    exact ⟨[], rfl, rfl, fun j hj => absurd hj (by simp)⟩
  | succ k ih =>
    intro start hs he
    obtain ⟨w, _, hok⟩ := rb.getById_live start hc hl h0 hs (by omega)
    obtain ⟨l, hcoll, hlen, helts⟩ := ih (start + 1) (by omega) (by omega)
    refine ⟨w :: l, ?_, by simp [hlen], ?_⟩
    · simp only [Buff.collect, hok, hcoll]
    · intro j hj
      cases j with
      | zero =>
        simpa using hok
      | succ j =>
        have hgoal := helts j (by simpa using hj)
        have harg : start + ((j : Int) + 1) = start + 1 + j := by ring
        simpa [harg] using hgoal

/-- C3: `GetNewerById(id)` first clamps `id` to `oldest - 1` when
`id < oldest` (so those calls coincide with `GetNewerById(oldest - 1)`); a
(possibly clamped) id above `newest` fails with `RequestedIdTooNew`;
otherwise it returns the `getById` values of the ids in `(id, newest]` in
increasing id order, with length exactly `newest - id`; in particular
`GetNewerById(newest)` returns the empty sequence with no error. -/
theorem c3_get_newer_by_id {α : Type} (rb : Buff α) (hInv : rb.Inv)
    (hc : 0 < rb.count) :
    (∀ id : Int, id < rb.oldest →
      rb.GetNewerById id = rb.GetNewerById (rb.oldest - 1)) ∧
    (∀ id : Int, rb.oldest ≤ id → rb.newest < id →
      rb.GetNewerById id
        = some (Except.error (NewerErr.requestedIdTooNew id rb.newest))) ∧
    (∀ id : Int, rb.oldest - 1 ≤ id → id ≤ rb.newest →
      ∃ l : List (Option α), rb.GetNewerById id = some (Except.ok l) ∧
        (l.length : Int) = rb.newest - id ∧
        ∀ (k : Nat) (hk : k < l.length),
          rb.getById (id + 1 + k) = GRes.ok (l.get ⟨k, hk⟩)) ∧
    rb.GetNewerById rb.newest = some (Except.ok []) := by
  obtain ⟨hl, hn, ho⟩ := hInv
  have hoz : 0 ≤ rb.oldest := by omega
  have hole : rb.oldest ≤ rb.newest + 1 := by omega
  refine ⟨?_, ?_, ?_, ?_⟩
  · intro id hid
    simp only [Buff.GetNewerById, if_pos hid, if_pos (show rb.oldest - 1 < rb.oldest by omega)]
  · intro id hid1 hid2
    simp only [Buff.GetNewerById, if_neg (not_lt.mpr hid1)]
    rw [if_pos hid2]
  · intro id hid1 hid2
    have hid' : (if id < rb.oldest then rb.oldest - 1 else id) = id := by
      split <;> omega
    obtain ⟨l, hcoll, hlen, helts⟩ :=
      rb.collect_spec hc hl hoz (rb.newest - id).toNat (id + 1) (by omega) (by omega)
    refine ⟨l, ?_, by omega, ?_⟩
    · simp only [Buff.GetNewerById, hid']
      rw [if_neg (not_lt.mpr hid2), hcoll]
    · intro k hk
      have := helts k hk
      simpa [add_assoc] using this
  · have hid' : (if rb.newest < rb.oldest then rb.oldest - 1 else rb.newest) = rb.newest := by
      split <;> omega
    simp only [Buff.GetNewerById, hid']
    rw [if_neg (by omega)]
    simp [Buff.collect, show (rb.newest - rb.newest).toNat = 0 by omega]

/-- Witness for C3: capacity 3 after pushes 10, 20, 30, 40 (`oldest = 1`,
`newest = 3`): a stale id clamps, `newest + 1` errors, `GetNewerById 1`
returns `[30, 40]`, and `GetNewerById newest` returns `[]`. -/
theorem c3_get_newer_by_id_witness :
    Buff.GetNewerById { buff := [some 40, some 20, some 30], count := 3, oldest := 1, newest := 3 } (-5 : Int)
      = Buff.GetNewerById { buff := [some 40, some 20, some 30], count := 3, oldest := 1, newest := 3 } (0 : Int) ∧
    Buff.GetNewerById { buff := [some 40, some 20, some 30], count := 3, oldest := 1, newest := 3 } (4 : Int)
      = some (Except.error (NewerErr.requestedIdTooNew 4 3)) ∧
    (∃ l : List (Option Nat),
      Buff.GetNewerById { buff := [some 40, some 20, some 30], count := 3, oldest := 1, newest := 3 } (1 : Int)
        = some (Except.ok l) ∧ (l.length : Int) = 2) ∧
    Buff.GetNewerById { buff := [some 40, some 20, some 30], count := 3, oldest := 1, newest := 3 } (3 : Int)
      = some (Except.ok ([] : List (Option Nat))) := by
  have h := c3_get_newer_by_id
    { buff := [some 40, some 20, some 30], count := 3, oldest := 1, newest := 3 }
    (by refine ⟨by decide, by decide, by decide⟩) (by decide)
  refine ⟨h.1 (-5) (by decide), h.2.1 4 (by decide) (by decide), ?_, h.2.2.2⟩
  obtain ⟨l, hl, hlen, _⟩ := h.2.2.1 1 (by decide) (by decide)
  exact ⟨l, hl, hlen⟩

/-- Splitting a pushed list: pushing `l₁ ++ l₂` is pushing `l₁`, then `l₂`. -/
lemma Buff.pushList_append {α : Type} (rb : Buff α) (l₁ l₂ : List α) :
    rb.pushList (l₁ ++ l₂) =
      match rb.pushList l₁ with
      | none => none
      | some rb1 => rb1.pushList l₂ := by
  induction l₁ generalizing rb with
  | nil => rfl
  | cons v l₁ ih =>
    simp only [List.cons_append, Buff.pushList]
    cases rb.Push (some v) with
    | none => rfl
    | some rb1 => exact ih rb1

/-- State after pushing the values of `l`, in order, into a fresh buffer of
positive capacity `c`: the cursors land at `newest = |l| - 1` and
`oldest = max 0 (|l| - c)`, and every still-live id `i` has its pushed value
`l[i]` in slot `i mod c`. -/
lemma Buff.pushList_spec {α : Type} (c : Int) (hc : 0 < c) (l : List α) :
    ∀ rb0 : Buff α, NewBuff α c = some rb0 →
      ∃ rb, rb0.pushList l = some rb ∧ rb.count = c ∧ rb.Inv ∧
        rb.newest = (l.length : Int) - 1 ∧
        rb.oldest = max 0 ((l.length : Int) - c) ∧
        ∀ (i : Nat) (hi : i < l.length), (l.length : Int) ≤ (i : Int) + c →
          rb.buff[((i : Int).tmod c).toNat]? = some (some (l.get ⟨i, hi⟩)) := by
  induction l using List.reverseRecOn with
  | nil =>
    intro rb0 h0
    rw [NewBuff, if_neg (by omega)] at h0
    cases h0
    refine ⟨_, rfl, rfl, ⟨by simp, by simp, by simp; omega⟩, by simp, by simp; omega, ?_⟩
    intro i hi
    exact absurd hi (by simp)
  | append_singleton l v ih =>
    intro rb0 h0
    obtain ⟨rb, hrun, hcnt, hInv, hnew, hold, hchar⟩ := ih rb0 h0
    obtain ⟨hl, hn, ho⟩ := hInv
    subst hcnt
    have hstep := rb.push_eq (some v) hc hn hl
    have hge : 0 ≤ (rb.newest + 1).tmod rb.count := Int.tmod_nonneg _ (by omega)
    have hlt : (rb.newest + 1).tmod rb.count < rb.count := Int.tmod_lt_of_pos _ hc
    set rb1 : Buff α :=
      { buff := rb.buff.set (((rb.newest + 1).tmod rb.count).toNat) (some v),
        count := rb.count,
        oldest := if rb.newest + 1 ≥ rb.count then rb.oldest + 1 else rb.oldest,
        newest := rb.newest + 1 } with hrb1
    refine ⟨rb1, ?_, by simp [hrb1], ?_, ?_, ?_, ?_⟩
    · rw [rb0.pushList_append l [v], hrun]
      simp only [Buff.pushList, Buff.Push, hstep]
    · refine ⟨by simp [hrb1, List.length_set, hl], by simp [hrb1]; omega, ?_⟩
      simp only [hrb1]
      split <;> omega
    · simp only [hrb1, List.length_append, List.length_singleton]
      push_cast
      omega
    · simp only [hrb1, List.length_append, List.length_singleton]
      push_cast
      split <;> omega
    · intro i hi hfit
      have hi' : i < l.length + 1 := by simpa using hi
      rw [List.length_append, List.length_singleton] at hfit
      push_cast at hfit
      by_cases hcase : i < l.length
      · have hslot : ((i : Int).tmod rb.count).toNat ≠ ((rb.newest + 1).tmod rb.count).toNat := by
          apply slot_toNat_ne (by omega) (by omega) hc
          omega
        have hchr := hchar i hcase (by omega)
        simp only [hrb1]
        rw [List.getElem?_set_ne (Ne.symm hslot), hchr]
        have hg : (l ++ [v]).get ⟨i, hi⟩ = l.get ⟨i, hcase⟩ := by
          simp [List.get_eq_getElem, List.getElem_append_left hcase]
        rw [hg]
      · have hieq : (rb.newest + 1) = (i : Int) := by omega
        have hgei : 0 ≤ (i : Int).tmod rb.count := Int.tmod_nonneg _ (by omega)
        have hlti : (i : Int).tmod rb.count < rb.count := Int.tmod_lt_of_pos _ hc
        simp only [hrb1]
        rw [hieq, List.getElem?_set_self (by rw [hl]; omega)]
        have hg : (l ++ [v]).get ⟨i, hi⟩ = v := by
          have hieq' : i = l.length := by omega
          subst hieq'
          simp
        rw [hg]


/-- C1: after pushing the `N` values of `l` into a fresh buffer of capacity
`c > 0`: `GetNewestId = N - 1`; `GetOldestId = 0` when `N ≤ c` and `N - c`
when `N > c`; `GetById(i)` returns the `i`-th pushed value for every live
`i` (in `[oldest, newest]`); and `GetById(id)` fails with `IdTooOld` for
every `id < oldest`. -/
theorem c1_push_sequence {α : Type} (c : Int) (hc : 0 < c) (l : List α)
    (rb0 rb : Buff α) (h0 : NewBuff α c = some rb0)
    (h : rb0.pushList l = some rb) :
    rb.GetNewestId = (l.length : Int) - 1 ∧
    ((l.length : Int) ≤ c → rb.GetOldestId = 0) ∧
    (c < (l.length : Int) → rb.GetOldestId = (l.length : Int) - c) ∧
    (∀ (i : Nat) (hi : i < l.length), rb.GetOldestId ≤ (i : Int) →
      rb.GetById (i : Int) = GRes.ok (some (l.get ⟨i, hi⟩))) ∧
    (∀ id : Int, id < rb.GetOldestId →
      rb.GetById id = GRes.err (GetErr.idTooOld id rb.GetNewestId)) := by
  obtain ⟨rb', hrun, hcnt, hInv, hnew, hold, hchar⟩ := Buff.pushList_spec c hc l rb0 h0
  rw [hrun] at h
  cases h
  obtain ⟨hl, hn, ho⟩ := hInv
  refine ⟨hnew, by intro h1; rw [Buff.GetOldestId, hold]; omega,
    by intro h1; rw [Buff.GetOldestId, hold]; omega, ?_, ?_⟩
  · intro i hi hlive
    rw [Buff.GetOldestId] at hlive
    obtain ⟨w, hwslot, hwok⟩ := rb.getById_live (i : Int) (by omega) hl (by omega)
      hlive (by omega)
    have hchr := hchar i hi (by omega)
    rw [hcnt] at hwslot
    rw [hchr] at hwslot
    rw [Buff.GetById, hwok, Option.some.inj hwslot]
  · intro id hid
    rw [Buff.GetOldestId] at hid
    rw [Buff.GetById, Buff.getById, if_pos hid, Buff.GetNewestId]

/-- Witness for C1: capacity 2 after pushes 1, 2, 3 — id 0 was evicted,
id 1 reads back its pushed value, and `GetById(0)` fails `IdTooOld`. -/
theorem c1_push_sequence_witness :
    Buff.GetNewestId { buff := [some 3, some 2], count := 2, oldest := 1, newest := 2 } = 2 ∧
    Buff.GetOldestId { buff := [some 3, some 2], count := 2, oldest := 1, newest := 2 } = 1 ∧
    Buff.GetById { buff := [some 3, some 2], count := 2, oldest := 1, newest := 2 } 1
      = GRes.ok (some (2 : Nat)) ∧
    Buff.GetById { buff := [some 3, some 2], count := 2, oldest := 1, newest := 2 } 0
      = GRes.err (GetErr.idTooOld 0 2) := by
  have h := c1_push_sequence 2 (by decide) [1, 2, 3]
    { buff := [none, none], count := 2, oldest := 0, newest := -1 }
    { buff := [some 3, some 2], count := 2, oldest := 1, newest := 2 }
    (by decide) (by decide)
  exact ⟨h.1, h.2.2.1 (by decide), h.2.2.2.1 1 (by decide) (by decide),
    h.2.2.2.2 0 (by decide)⟩

/-- C4: every state reachable from `NewBuff c` (capacity `c > 0`) by `Push`
and `UpsertById` calls satisfies `oldest ≤ newest + 1` and
`newest - oldest + 1 ≤ c`, and on every further `Push` or `UpsertById` from
such a state both cursors are monotonically non-decreasing. -/
theorem c4_reachable_invariants {α : Type} (c : Int) (hc : 0 < c)
    (rb : Buff α) (h : Reach α c rb) :
    rb.oldest ≤ rb.newest + 1 ∧
    rb.newest - rb.oldest + 1 ≤ c ∧
    (∀ (v : Option α) (rb' : Buff α), rb.Push v = some rb' →
      rb.oldest ≤ rb'.oldest ∧ rb.newest ≤ rb'.newest) ∧
    (∀ (id : Int) (v : α) (rb' : Buff α) (e : Option UpsertErr),
      rb.UpsertById id v = some (rb', e) →
      rb.oldest ≤ rb'.oldest ∧ rb.newest ≤ rb'.newest) := by
  obtain ⟨hcnt, hInv⟩ := reach_inv hc h
  obtain ⟨hl, hn, ho⟩ := hInv
  refine ⟨by omega, by omega, ?_, ?_⟩
  · intro v rb' hstep
    rw [Buff.Push, rb.push_eq v (by omega) hn hl] at hstep
    cases hstep
    constructor
    · simp only
      split <;> omega
    · simp only
      omega
  · intro id v rb' e hstep
    by_cases hid : rb.oldest ≤ id
    · obtain ⟨rb'', _, hInv'', hcnt'', hnew'', hold'', heq, _⟩ :=
        rb.upsert_eq id v ⟨hl, hn, ho⟩ (by omega) hid
      rw [heq] at hstep
      have hrb' : rb' = { rb'' with buff := rb''.buff.set ((id.tmod rb.count).toNat) (some v) } :=
        ((Prod.ext_iff.mp (Option.some.inj hstep)).1).symm
      subst hrb'
      constructor
      · simp only
        omega
      · simp only
        omega
    · rw [Buff.UpsertById, if_pos (by omega)] at hstep
      have hrb' : rb' = rb := ((Prod.ext_iff.mp (Option.some.inj hstep)).1).symm
      subst hrb'
      exact ⟨le_refl _, le_refl _⟩

/-- Witness for C4 at the initial capacity-1 buffer: the two cursor
inequalities hold there. -/
theorem c4_reachable_invariants_witness :
    ({ buff := [none], count := 1, oldest := 0, newest := -1 } : Buff Nat).oldest
      ≤ ({ buff := [none], count := 1, oldest := 0, newest := -1 } : Buff Nat).newest + 1 ∧
    ({ buff := [none], count := 1, oldest := 0, newest := -1 } : Buff Nat).newest
      - ({ buff := [none], count := 1, oldest := 0, newest := -1 } : Buff Nat).oldest + 1 ≤ 1 := by
  have h := c4_reachable_invariants 1 (by decide)
    ({ buff := [none], count := 1, oldest := 0, newest := -1 } : Buff Nat)
    (Reach.init _ (by decide))
  exact ⟨h.1, h.2.1⟩

end RingBuff
